import Mathlib

/-!
Shallow embedding of the camera subsystem of `src/learnopengl/src/camera.cpp`
(together with the call sites in `src/learnopengl/src/main.cpp`).

The C++ code stores `float`/`double` scalars; here every scalar is modelled as
a real number (`ℝ`), the exact idealisation of the floating-point arithmetic,
so the "up to floating-point tolerance" phrases of the specification become
exact equalities.  `glm::vec3`, `glm::mat4`, `glm::normalize`, `glm::cross`,
`glm::radians` and `glm::lookAt` are embedded component-by-component from
their GLM definitions (right-handed `lookAtRH`, column-major matrix).
-/

open Real

/-- `glm::vec3`: a 3-component vector of scalars. -/
structure Vec3 where
  x : ℝ
  y : ℝ
  z : ℝ

namespace Vec3

/-- Componentwise addition (`operator+` on `glm::vec3`). -/
def add (a b : Vec3) : Vec3 := ⟨a.x + b.x, a.y + b.y, a.z + b.z⟩

/-- Componentwise subtraction (`operator-` on `glm::vec3`). -/
def sub (a b : Vec3) : Vec3 := ⟨a.x - b.x, a.y - b.y, a.z - b.z⟩

/-- Vector-times-scalar (`v * t` on `glm::vec3`). -/
def scale (v : Vec3) (t : ℝ) : Vec3 := ⟨v.x * t, v.y * t, v.z * t⟩

/-- `glm::dot` for `vec3`. -/
def dot (a b : Vec3) : ℝ := a.x * b.x + a.y * b.y + a.z * b.z

/-- `glm::cross` for `vec3`:
`(a.y*b.z - b.y*a.z, a.z*b.x - b.z*a.x, a.x*b.y - b.x*a.y)`. -/
def cross (a b : Vec3) : Vec3 :=
  ⟨a.y * b.z - b.y * a.z, a.z * b.x - b.z * a.x, a.x * b.y - b.x * a.y⟩

/-- `glm::length`: `sqrt(dot(v, v))`. -/
noncomputable def norm (v : Vec3) : ℝ := Real.sqrt (v.dot v)

/-- `glm::normalize`: `v * inversesqrt(dot(v, v))`, i.e. `v / length(v)`. -/
noncomputable def normalize (v : Vec3) : Vec3 := v.scale (1 / v.norm)

/-- The zero vector. -/
def zero : Vec3 := ⟨0, 0, 0⟩

end Vec3

/-- `glm::mat4`, column-major: `mIJ` is `Result[I][J]` (column `I`, row `J`). -/
structure Mat4 where
  m00 : ℝ
  m01 : ℝ
  m02 : ℝ
  m03 : ℝ
  m10 : ℝ
  m11 : ℝ
  m12 : ℝ
  m13 : ℝ
  m20 : ℝ
  m21 : ℝ
  m22 : ℝ
  m23 : ℝ
  m30 : ℝ
  m31 : ℝ
  m32 : ℝ
  m33 : ℝ

/-- `glm::radians`: degrees to radians, multiplication by `π / 180`. -/
noncomputable def radians (degrees : ℝ) : ℝ := degrees * (π / 180)

/-- `glm::lookAt` (right-handed variant `lookAtRH`, the GLM default):
`f = normalize(center - eye)`, `s = normalize(cross(f, up))`, `u = cross(s, f)`,
assembled into the column-major view matrix. -/
noncomputable def lookAt (eye center up : Vec3) : Mat4 :=
  let f := (center.sub eye).normalize
  let s := (f.cross up).normalize
  let u := s.cross f
  { m00 := s.x, m01 := u.x, m02 := -f.x, m03 := 0
    m10 := s.y, m11 := u.y, m12 := -f.y, m13 := 0
    m20 := s.z, m21 := u.z, m22 := -f.z, m23 := 0
    m30 := -(s.dot eye), m31 := -(u.dot eye), m32 := f.dot eye, m33 := 1 }

/-- `enum Camera_Movement { FORWARD, BACKWARD, LEFT, RIGHT }`. -/
inductive Camera_Movement where
  | FORWARD
  | BACKWARD
  | LEFT
  | RIGHT
deriving DecidableEq

/-- The member variables of `class Camera`. -/
structure Camera where
  position : Vec3
  front : Vec3
  up : Vec3
  right : Vec3
  worldUp : Vec3
  yaw : ℝ
  pitch : ℝ
  movementSpeed : ℝ
  mouseSensitivity : ℝ
  zoom : ℝ

namespace Camera

/-- `Camera::updateCameraVectors` (private): recomputes `front`, `right`, `up`
from the current `yaw`, `pitch`, `worldUp`. -/
noncomputable def updateCameraVectors (c : Camera) : Camera :=
  let new_front : Vec3 :=
    ⟨Real.cos (radians c.yaw) * Real.cos (radians c.pitch),
     Real.sin (radians c.pitch),
     Real.sin (radians c.yaw) * Real.cos (radians c.pitch)⟩
  let front := new_front.normalize
  let right := (front.cross c.worldUp).normalize
  let up := (right.cross front).normalize
  { c with front := front, right := right, up := up }

/-- The vector constructor `Camera::Camera(position, worldUp, yaw, pitch)`:
initialises the members (with `front = (0,0,-1)` and the default speed `2.5`,
sensitivity `0.1`, zoom `45`) and immediately calls `updateCameraVectors`.
The C++ defaults are `position = (0,0,0)`, `worldUp = (0,1,0)`, `yaw = -90`,
`pitch = 0`. -/
noncomputable def init (position worldUp : Vec3) (yaw pitch : ℝ) : Camera :=
  updateCameraVectors
    { position := position, front := ⟨0, 0, -1⟩, up := ⟨0, 0, -1⟩
      right := ⟨0, 0, -1⟩, worldUp := worldUp, yaw := yaw, pitch := pitch
      movementSpeed := 2.5, mouseSensitivity := 0.1, zoom := 45 }

/-- `Camera::GetViewMatrix`: `glm::lookAt(position, position + front, up)`.
A pure read: it returns a matrix and mutates nothing. -/
noncomputable def GetViewMatrix (c : Camera) : Mat4 :=
  lookAt c.position (c.position.add c.front) c.up

/-- `Camera::processKeyboard(direction, deltaTime)`: four independent `if`s
translating `position` by `velocity = movementSpeed * deltaTime` along
`front` (FORWARD/BACKWARD) or `right` (LEFT/RIGHT). -/
def processKeyboard (c : Camera) (direction : Camera_Movement) (deltaTime : ℝ) :
    Camera :=
  let velocity := c.movementSpeed * deltaTime
  let c := if direction = .FORWARD then
    { c with position := c.position.add (c.front.scale velocity) } else c
  let c := if direction = .BACKWARD then
    { c with position := c.position.sub (c.front.scale velocity) } else c
  let c := if direction = .LEFT then
    { c with position := c.position.sub (c.right.scale velocity) } else c
  let c := if direction = .RIGHT then
    { c with position := c.position.add (c.right.scale velocity) } else c
  c

/-- `Camera::processMouseMovement(xoffset, yoffset, invertPitch, constrainPitch)`:
scales both offsets by `mouseSensitivity`, adds them to `yaw` and `pitch`,
clamps `pitch` to `[-89, 89]` when `constrainPitch` holds, then calls
`updateCameraVectors`.  Note: the C++ declares the `invertPitch` parameter
(default `true`) but its body never reads it; the embedding keeps the unused
parameter. -/
noncomputable def processMouseMovement (c : Camera) (xoffset yoffset : ℝ)
    (invertPitch : Bool := true) (constrainPitch : Bool := true) : Camera :=
  let xoffset := xoffset * c.mouseSensitivity
  let yoffset := yoffset * c.mouseSensitivity
  let yaw := c.yaw + xoffset
  let pitch := c.pitch + yoffset
  let pitch := if constrainPitch then
      let pitch := if pitch > 89 then (89 : ℝ) else pitch
      if pitch < -89 then (-89 : ℝ) else pitch
    else pitch
  updateCameraVectors { c with yaw := yaw, pitch := pitch }

/-- `Camera::processMouseScroll(yoffset, constrainZoom)`: subtracts `yoffset`
from `zoom`; returns early when `constrainZoom` is false, otherwise clamps
`zoom` to `[1, 45]`. -/
noncomputable def processMouseScroll (c : Camera) (yoffset : ℝ)
    (constrainZoom : Bool := true) : Camera :=
  let c := { c with zoom := c.zoom - yoffset }
  if !constrainZoom then c
  else
    let c := if c.zoom < 1 then { c with zoom := (1 : ℝ) } else c
    let c := if c.zoom > 45 then { c with zoom := (45 : ℝ) } else c
    c

end Camera

/-- The orthonormal-frame invariant of the specification: `front`, `right`,
`up` are unit length, pairwise orthogonal, and `right`/`up` are the normalised
cross products named by the spec. -/
def Camera.GoodFrame (c : Camera) : Prop :=
  c.front.norm = 1 ∧ c.right.norm = 1 ∧ c.up.norm = 1 ∧
  c.front.dot c.right = 0 ∧ c.front.dot c.up = 0 ∧ c.right.dot c.up = 0 ∧
  c.right = (c.front.cross c.worldUp).normalize ∧
  c.up = (c.right.cross c.front).normalize

/-! ### Helper lemmas: unfolding the operations into explicit records -/

namespace Camera

/-- `updateCameraVectors` only rewrites the three basis vectors. -/
theorem updateCameraVectors_fields (c : Camera) :
    (c.updateCameraVectors).position = c.position ∧
    (c.updateCameraVectors).worldUp = c.worldUp ∧
    (c.updateCameraVectors).yaw = c.yaw ∧
    (c.updateCameraVectors).pitch = c.pitch ∧
    (c.updateCameraVectors).movementSpeed = c.movementSpeed ∧
    (c.updateCameraVectors).mouseSensitivity = c.mouseSensitivity ∧
    (c.updateCameraVectors).zoom = c.zoom :=
  ⟨rfl, rfl, rfl, rfl, rfl, rfl, rfl⟩

/-- The basis vectors written by `updateCameraVectors` depend only on `yaw`,
`pitch` and `worldUp`, none of which it changes, so it is idempotent. -/
theorem updateCameraVectors_idem (c : Camera) :
    (c.updateCameraVectors).updateCameraVectors = c.updateCameraVectors := rfl

/-- `processMouseMovement` as one explicit record update followed by
`updateCameraVectors` (pure unfolding of the body). -/
theorem processMouseMovement_eq (c : Camera) (xo yo : ℝ) (ip cp : Bool) :
    c.processMouseMovement xo yo ip cp =
      Camera.updateCameraVectors { c with
        yaw := c.yaw + xo * c.mouseSensitivity
        pitch :=
          if cp then
            if (if c.pitch + yo * c.mouseSensitivity > 89 then (89 : ℝ)
                else c.pitch + yo * c.mouseSensitivity) < -89 then (-89 : ℝ)
            else if c.pitch + yo * c.mouseSensitivity > 89 then (89 : ℝ)
            else c.pitch + yo * c.mouseSensitivity
          else c.pitch + yo * c.mouseSensitivity } := rfl

/-- `processMouseScroll` as one explicit record update: it touches no field
but `zoom`, which it clamps exactly when the `constrainZoom` flag holds. -/
theorem processMouseScroll_eq (c : Camera) (d : ℝ) (cz : Bool) :
    c.processMouseScroll d cz =
      { c with zoom := if cz then
          (if c.zoom - d < 1 then (1 : ℝ)
           else if c.zoom - d > 45 then (45 : ℝ) else c.zoom - d)
        else c.zoom - d } := by
  cases cz with
  | false => rfl
  | true =>
    simp only [Camera.processMouseScroll, Bool.not_true, Bool.false_eq_true,
      if_false, if_true]
    split_ifs <;> simp_all

end Camera

/-! ### Claim theorems -/

/-- Claim C2: for every camera state and any `processMouseMovement` call with
`constrainPitch = true` (any offsets, any `invertPitch`), the resulting
`pitch` lies in `[-89, 89]`; since this holds from an arbitrary prior state,
it holds after every call of any such sequence. -/
theorem processMouseMovement_pitch_in_range (c : Camera) (xo yo : ℝ)
    (ip : Bool) :
    -89 ≤ (c.processMouseMovement xo yo ip true).pitch ∧
    (c.processMouseMovement xo yo ip true).pitch ≤ 89 := by
  rw [Camera.processMouseMovement_eq]
  simp only [Camera.updateCameraVectors, if_true]
  constructor <;> (split_ifs <;> linarith)

/-- Claim C3 (refuted): the `invertPitch` argument of `processMouseMovement`
is never read by the body, so the calls with `invertPitch = true` and
`invertPitch = false` return identical cameras for every state and offsets —
no input exhibits a sign difference in the applied pitch offset. -/
theorem processMouseMovement_invertPitch_ignored (c : Camera) (xo yo : ℝ)
    (cp : Bool) :
    c.processMouseMovement xo yo true cp = c.processMouseMovement xo yo false cp :=
  rfl

/-- Claim C4: `processKeyboard` moves `position` by exactly
`velocity = movementSpeed * deltaTime` along `front` (added for FORWARD,
subtracted for BACKWARD) or `right` (subtracted for LEFT, added for RIGHT). -/
theorem processKeyboard_position_update (c : Camera) (dt : ℝ) :
    (c.processKeyboard .FORWARD dt).position
        = c.position.add (c.front.scale (c.movementSpeed * dt)) ∧
    (c.processKeyboard .BACKWARD dt).position
        = c.position.sub (c.front.scale (c.movementSpeed * dt)) ∧
    (c.processKeyboard .LEFT dt).position
        = c.position.sub (c.right.scale (c.movementSpeed * dt)) ∧
    (c.processKeyboard .RIGHT dt).position
        = c.position.add (c.right.scale (c.movementSpeed * dt)) :=
  ⟨rfl, rfl, rfl, rfl⟩

/-- Claim C5: with `constrainZoom = true`, `processMouseScroll` sets `zoom`
to `zoom - yOffset` clamped into `[1, 45]`; the result is always inside
`[1, 45]` whatever the prior state (hence over any call sequence), and from
`zoom = 45` an offset of `50` yields `zoom = 1`. -/
theorem processMouseScroll_constrained_clamps (c : Camera) (d : ℝ) :
    (c.processMouseScroll d true).zoom = min 45 (max 1 (c.zoom - d)) ∧
    1 ≤ (c.processMouseScroll d true).zoom ∧
    (c.processMouseScroll d true).zoom ≤ 45 ∧
    (Camera.processMouseScroll { c with zoom := 45 } 50 true).zoom = 1 := by
  simp only [Camera.processMouseScroll_eq, if_true]
  refine ⟨?_, ?_, ?_, by norm_num⟩
  · simp only [min_def, max_def]
    split_ifs <;> linarith
  · split_ifs <;> linarith
  · split_ifs <;> linarith

/-- Claim C7: `processKeyboard FORWARD dt` followed by
`processKeyboard BACKWARD dt` restores the camera exactly (both use the same
`front` and opposite signs, and neither touches any other field). -/
theorem processKeyboard_forward_backward_roundtrip (c : Camera) (dt : ℝ) :
    (c.processKeyboard .FORWARD dt).processKeyboard .BACKWARD dt = c := by
  cases c with
  | mk position front up right worldUp yaw pitch ms sens zoom =>
    cases position with
    | mk px py pz =>
      simp [Camera.processKeyboard, Vec3.add, Vec3.sub, Vec3.scale]

/-- Claim C9: `processKeyboard` changes only `position`: the orientation
angles, the basis vectors, `worldUp` and the three option scalars are all
returned unchanged for every direction and `deltaTime`. -/
theorem processKeyboard_only_position (c : Camera) (d : Camera_Movement)
    (dt : ℝ) :
    (c.processKeyboard d dt).front = c.front ∧
    (c.processKeyboard d dt).up = c.up ∧
    (c.processKeyboard d dt).right = c.right ∧
    (c.processKeyboard d dt).worldUp = c.worldUp ∧
    (c.processKeyboard d dt).yaw = c.yaw ∧
    (c.processKeyboard d dt).pitch = c.pitch ∧
    (c.processKeyboard d dt).movementSpeed = c.movementSpeed ∧
    (c.processKeyboard d dt).mouseSensitivity = c.mouseSensitivity ∧
    (c.processKeyboard d dt).zoom = c.zoom := by
  cases d <;> exact ⟨rfl, rfl, rfl, rfl, rfl, rfl, rfl, rfl, rfl⟩

/-- Claim C10: with `constrainZoom = false` (the mode the scroll callback in
`main.cpp` uses), `processMouseScroll` sets `zoom` to exactly `zoom - yOffset`
with no clamping and changes no other field; in particular from `zoom = 45`
an offset of `50` drives `zoom` to `-5`, outside `[1, 45]`. -/
theorem processMouseScroll_unconstrained_exact (c : Camera) (d : ℝ) :
    c.processMouseScroll d false = { c with zoom := c.zoom - d } ∧
    (Camera.processMouseScroll { c with zoom := 45 } 50 false).zoom < 1 := by
  refine ⟨rfl, ?_⟩
  show (45 : ℝ) - 50 < 1
  norm_num

/-- Claim C8 counterexample: the constructor accepts any pitch without
clamping, so the state `Camera(position=(0,0,0), worldUp=(0,1,0), yaw=-90,
pitch=100)` is reachable; on it `processMouseMovement(0, 0)` (defaults
`invertPitch = true`, `constrainPitch = true`) clamps `pitch` from `100`
to `89`, so the zero-offset call is not a no-op on every camera state. -/
theorem processMouseMovement_zero_not_noop_out_of_range :
    ((Camera.init ⟨0, 0, 0⟩ ⟨0, 1, 0⟩ (-90) 100).processMouseMovement
        0 0 true true).pitch ≠
      (Camera.init ⟨0, 0, 0⟩ ⟨0, 1, 0⟩ (-90) 100).pitch := by
  have h : (Camera.init ⟨0, 0, 0⟩ ⟨0, 1, 0⟩ (-90) 100).pitch = 100 := rfl
  have hs : (Camera.init ⟨0, 0, 0⟩ ⟨0, 1, 0⟩ (-90) 100).mouseSensitivity
      = 0.1 := rfl
  rw [Camera.processMouseMovement_eq, h, hs]
  simp only [Camera.updateCameraVectors, if_true]
  split_ifs <;> norm_num at *

/-- Claim C8 (amended): on a camera whose `pitch` already lies in `[-89, 89]`
and whose basis vectors are the ones `updateCameraVectors` derives (true of
every state the class itself produces), `processMouseMovement(0, 0)` with the
default flags is a complete no-op: the whole state, in particular `yaw`,
`pitch`, `front`, `right`, `up`, is unchanged. -/
theorem processMouseMovement_zero_noop_in_range (c : Camera)
    (h1 : -89 ≤ c.pitch) (h2 : c.pitch ≤ 89)
    (h3 : c.updateCameraVectors = c) :
    c.processMouseMovement 0 0 true true = c := by
  rw [Camera.processMouseMovement_eq]
  have e1 : c.yaw + 0 * c.mouseSensitivity = c.yaw := by ring
  have e2 : c.pitch + 0 * c.mouseSensitivity = c.pitch := by ring
  rw [e1]
  simp only [e2, if_true]
  rw [if_neg (not_lt.mpr h2), if_neg (not_lt.mpr h1)]
  exact h3

/-- Witness for the amended claim C8: the camera of `main.cpp`,
`Camera((0,0,3), (0,1,0))` with default `yaw = -90`, `pitch = 0`, is left
exactly unchanged by `processMouseMovement(0, 0)`. -/
theorem processMouseMovement_zero_noop_witness :
    Camera.processMouseMovement (Camera.init ⟨0, 0, 3⟩ ⟨0, 1, 0⟩ (-90) 0)
        0 0 true true =
      Camera.init ⟨0, 0, 3⟩ ⟨0, 1, 0⟩ (-90) 0 :=
  processMouseMovement_zero_noop_in_range _
    (by show (-89 : ℝ) ≤ (0 : ℝ); norm_num)
    (by show (0 : ℝ) ≤ (89 : ℝ); norm_num)
    (Camera.updateCameraVectors_idem _)

/-! ### Vector algebra lemmas for the orthonormal-frame invariant -/

namespace Vec3

theorem dot_self_nonneg (v : Vec3) : 0 ≤ v.dot v := by
  simp only [dot]
  nlinarith [sq_nonneg v.x, sq_nonneg v.y, sq_nonneg v.z]

theorem dot_self_eq_zero_iff (v : Vec3) : v.dot v = 0 ↔ v = zero := by
  constructor
  · intro h
    cases v with
    | mk x y z =>
      simp only [dot] at h
      have hx : x = 0 := by nlinarith
      have hy : y = 0 := by nlinarith
      have hz : z = 0 := by nlinarith
      simp [zero, hx, hy, hz]
  · intro h
    subst h
    simp [dot, zero]

theorem norm_eq_one_iff (v : Vec3) : v.norm = 1 ↔ v.dot v = 1 := by
  rw [norm, Real.sqrt_eq_one]

theorem dot_scale_right (v w : Vec3) (t : ℝ) :
    v.dot (w.scale t) = t * v.dot w := by
  simp only [dot, scale]
  ring

theorem scale_dot_scale (v w : Vec3) (t s : ℝ) :
    (v.scale t).dot (w.scale s) = t * s * v.dot w := by
  simp only [dot, scale]
  ring

theorem dot_cross_self_left (a b : Vec3) : a.dot (a.cross b) = 0 := by
  simp only [dot, cross]
  ring

theorem dot_cross_self_right (a b : Vec3) : b.dot (a.cross b) = 0 := by
  simp only [dot, cross]
  ring

theorem cross_dot_cross_self (a b : Vec3) :
    (a.cross b).dot (a.cross b) = a.dot a * b.dot b - (a.dot b) ^ 2 := by
  simp only [dot, cross]
  ring

theorem dot_comm (a b : Vec3) : a.dot b = b.dot a := by
  simp only [dot]
  ring

theorem normalize_of_dot_one (v : Vec3) (h : v.dot v = 1) : v.normalize = v := by
  have hn : v.norm = 1 := (norm_eq_one_iff v).mpr h
  cases v with
  | mk x y z => simp [normalize, hn, scale]

theorem normalize_dot_normalize (v : Vec3) (h : v ≠ zero) :
    v.normalize.dot v.normalize = 1 := by
  have hpos : 0 < v.dot v :=
    lt_of_le_of_ne (dot_self_nonneg v)
      (fun heq => h ((dot_self_eq_zero_iff v).mp heq.symm))
  have hs : Real.sqrt (v.dot v) ≠ 0 := by positivity
  rw [normalize, scale_dot_scale, norm]
  field_simp

theorem dot_normalize_right (v w : Vec3) :
    v.dot w.normalize = (1 / w.norm) * v.dot w := by
  rw [normalize, dot_scale_right]

end Vec3

namespace Camera

/-- Pure vector-algebra core of Claim C1: if `f` is a unit vector and
`cross(f, u)` is nonzero (i.e. `u` is not parallel to `f`), then `f`,
`r = normalize(cross(f, u))` and `p = normalize(cross(r, f))` are unit length
and pairwise orthogonal. -/
theorem frame_lemma (f u : Vec3) (hf : f.dot f = 1)
    (hNP : f.cross u ≠ Vec3.zero) :
    f.norm = 1 ∧ (f.cross u).normalize.norm = 1 ∧
    (((f.cross u).normalize).cross f).normalize.norm = 1 ∧
    f.dot ((f.cross u).normalize) = 0 ∧
    f.dot ((((f.cross u).normalize).cross f).normalize) = 0 ∧
    ((f.cross u).normalize).dot ((((f.cross u).normalize).cross f).normalize)
      = 0 := by
  have hr1 : (f.cross u).normalize.dot ((f.cross u).normalize) = 1 :=
    Vec3.normalize_dot_normalize _ hNP
  have hfr : f.dot ((f.cross u).normalize) = 0 := by
    rw [Vec3.dot_normalize_right, Vec3.dot_cross_self_left, mul_zero]
  have hp1 : (((f.cross u).normalize).cross f).dot
      (((f.cross u).normalize).cross f) = 1 := by
    rw [Vec3.cross_dot_cross_self, hr1, hf,
      Vec3.dot_comm ((f.cross u).normalize) f, hfr]
    norm_num
  have hpn : (((f.cross u).normalize).cross f).normalize
      = ((f.cross u).normalize).cross f :=
    Vec3.normalize_of_dot_one _ hp1
  refine ⟨(Vec3.norm_eq_one_iff f).mpr hf, (Vec3.norm_eq_one_iff _).mpr hr1,
    ?_, hfr, ?_, ?_⟩
  · rw [hpn]
    exact (Vec3.norm_eq_one_iff _).mpr hp1
  · rw [hpn]
    exact Vec3.dot_cross_self_right _ f
  · rw [hpn]
    exact Vec3.dot_cross_self_left _ f

/-- The new front vector computed by `updateCameraVectors` is unit length:
its pre-normalisation value already has norm `1` by the Pythagorean identity,
so normalising fixes it. -/
theorem updateCameraVectors_front_unit (c : Camera) :
    (c.updateCameraVectors).front.dot (c.updateCameraVectors).front = 1 := by
  have hnf1 : (⟨Real.cos (radians c.yaw) * Real.cos (radians c.pitch),
      Real.sin (radians c.pitch),
      Real.sin (radians c.yaw) * Real.cos (radians c.pitch)⟩ : Vec3).dot
      ⟨Real.cos (radians c.yaw) * Real.cos (radians c.pitch),
       Real.sin (radians c.pitch),
       Real.sin (radians c.yaw) * Real.cos (radians c.pitch)⟩ = 1 := by
    have h1 := Real.sin_sq_add_cos_sq (radians c.yaw)
    have h2 := Real.sin_sq_add_cos_sq (radians c.pitch)
    simp only [Vec3.dot]
    linear_combination (Real.cos (radians c.pitch)) ^ 2 * h1 + h2
  show (Vec3.normalize _).dot (Vec3.normalize _) = 1
  rw [Vec3.normalize_of_dot_one _ hnf1]
  exact hnf1

/-- The heart of Claim C1: after `updateCameraVectors`, provided `worldUp` is
not parallel to the freshly computed `front` (the spec additionally assumes
`worldUp` is unit, which is not even needed), the three basis vectors form
the orthonormal frame the specification describes. -/
theorem updateCameraVectors_goodFrame (c : Camera)
    (hNP : (c.updateCameraVectors).front.cross c.worldUp ≠ Vec3.zero) :
    (c.updateCameraVectors).GoodFrame := by
  obtain ⟨e1, e2, e3, e4, e5, e6⟩ :=
    frame_lemma (c.updateCameraVectors).front c.worldUp
      (updateCameraVectors_front_unit c) hNP
  exact ⟨e1, e2, e3, e4, e5, e6, rfl, rfl⟩

end Camera

/-- Concrete evaluation of the constructor at the state `main.cpp` uses:
`Camera(position, (0,1,0))` with default `yaw = -90`, `pitch = 0` yields
`front = (0,0,-1)`, `right = (1,0,0)`, `up = (0,1,0)`. -/
theorem Camera.init_default (pos : Vec3) :
    Camera.init pos ⟨0, 1, 0⟩ (-90) 0 =
      { position := pos, front := ⟨0, 0, -1⟩, up := ⟨0, 1, 0⟩,
        right := ⟨1, 0, 0⟩, worldUp := ⟨0, 1, 0⟩, yaw := -90, pitch := 0,
        movementSpeed := 2.5, mouseSensitivity := 0.1, zoom := 45 } := by
  have h90 : radians (-90) = -(π / 2) := by
    rw [radians]; ring
  have h0 : radians 0 = 0 := by
    rw [radians]; ring
  have e1 : (⟨Real.cos (radians (-90)) * Real.cos (radians 0),
      Real.sin (radians 0),
      Real.sin (radians (-90)) * Real.cos (radians 0)⟩ : Vec3)
      = ⟨0, 0, -1⟩ := by
    rw [h90, h0]
    simp [Real.cos_pi_div_two, Real.sin_pi_div_two]
  have n1 : Vec3.normalize ⟨0, 0, -1⟩ = ⟨0, 0, -1⟩ :=
    Vec3.normalize_of_dot_one _ (by norm_num [Vec3.dot])
  have c1 : Vec3.cross ⟨0, 0, -1⟩ ⟨0, 1, 0⟩ = ⟨1, 0, 0⟩ := by
    norm_num [Vec3.cross]
  have n2 : Vec3.normalize ⟨1, 0, 0⟩ = ⟨1, 0, 0⟩ :=
    Vec3.normalize_of_dot_one _ (by norm_num [Vec3.dot])
  have c2 : Vec3.cross ⟨1, 0, 0⟩ ⟨0, 0, -1⟩ = ⟨0, 1, 0⟩ := by
    norm_num [Vec3.cross]
  have n3 : Vec3.normalize ⟨0, 1, 0⟩ = ⟨0, 1, 0⟩ :=
    Vec3.normalize_of_dot_one _ (by norm_num [Vec3.dot])
  simp only [Camera.init, Camera.updateCameraVectors, e1, n1, c1, n2, c2, n3]

/-- Claim C1: after construction or any `processMouseMovement` call, provided
`worldUp` is a unit vector not parallel to the resulting `front`, the vectors
`front`, `right`, `up` are unit length and pairwise orthogonal, with
`right = normalize(cross(front, worldUp))` and
`up = normalize(cross(right, front))` (both calls funnel through
`updateCameraVectors`). -/
theorem camera_frame_orthonormal :
    (∀ (position worldUp : Vec3) (yaw pitch : ℝ),
        worldUp.norm = 1 →
        (Camera.init position worldUp yaw pitch).front.cross worldUp
          ≠ Vec3.zero →
        (Camera.init position worldUp yaw pitch).GoodFrame) ∧
    (∀ (c : Camera) (xo yo : ℝ) (ip cp : Bool),
        c.worldUp.norm = 1 →
        (c.processMouseMovement xo yo ip cp).front.cross c.worldUp
          ≠ Vec3.zero →
        (c.processMouseMovement xo yo ip cp).GoodFrame) := by
  constructor
  · intro p w y pi _ hNP
    exact Camera.updateCameraVectors_goodFrame _ hNP
  · intro c xo yo ip cp _ hNP
    exact Camera.updateCameraVectors_goodFrame _ hNP

/-- Witness for Claim C1: the camera of `main.cpp`, constructed at
`(0,0,3)` with `worldUp = (0,1,0)` and default angles, satisfies both
hypotheses (its `front` is `(0,0,-1)`, not parallel to `worldUp`) and hence
carries an orthonormal frame. -/
theorem camera_frame_orthonormal_witness :
    Vec3.norm ⟨0, 1, 0⟩ = 1 ∧
    (Camera.init ⟨0, 0, 3⟩ ⟨0, 1, 0⟩ (-90) 0).front.cross ⟨0, 1, 0⟩
      ≠ Vec3.zero ∧
    (Camera.init ⟨0, 0, 3⟩ ⟨0, 1, 0⟩ (-90) 0).GoodFrame := by
  have hU : Vec3.norm ⟨0, 1, 0⟩ = 1 :=
    (Vec3.norm_eq_one_iff _).mpr (by norm_num [Vec3.dot])
  have hNP : (Camera.init ⟨0, 0, 3⟩ ⟨0, 1, 0⟩ (-90) 0).front.cross ⟨0, 1, 0⟩
      ≠ Vec3.zero := by
    rw [Camera.init_default]
    norm_num [Vec3.cross, Vec3.zero]
  exact ⟨hU, hNP,
    camera_frame_orthonormal.1 ⟨0, 0, 3⟩ ⟨0, 1, 0⟩ (-90) 0 hU hNP⟩

/-- Claim C6: the camera constructed at `(0,0,3)` with `worldUp = (0,1,0)`
and the default `yaw = -90`, `pitch = 0` has `front = (0,0,-1)`, and its
`GetViewMatrix` equals the look-at transform from `(0,0,3)` toward `(0,0,2)`
with up `(0,1,0)`; in general `GetViewMatrix` returns
`lookAt(position, position + front, up)` and, being a plain function of the
state, mutates nothing. -/
theorem default_camera_front_and_view :
    (Camera.init ⟨0, 0, 3⟩ ⟨0, 1, 0⟩ (-90) 0).front = ⟨0, 0, -1⟩ ∧
    (Camera.init ⟨0, 0, 3⟩ ⟨0, 1, 0⟩ (-90) 0).GetViewMatrix
      = lookAt ⟨0, 0, 3⟩ ⟨0, 0, 2⟩ ⟨0, 1, 0⟩ ∧
    ∀ c : Camera,
      c.GetViewMatrix = lookAt c.position (c.position.add c.front) c.up := by
  refine ⟨?_, ?_, fun c => rfl⟩
  · rw [Camera.init_default]
  · rw [Camera.GetViewMatrix, Camera.init_default]
    norm_num [Vec3.add]
